import Mathlib

/-!
Verification of the apptainer OCI launcher excerpt.

Shallow embedding of the Go sources:
 - `getReverseUserMaps`, `getProcessArgs`, `getProcessEnv`, `defaultEnv`,
   `getProcess` (process.go excerpt),
 - `OciDelete` (delete.go excerpt),
 - `addCDIDevices` (modelled from the spec; only its test is in the excerpt).

Machine integers (`uint32` uid/gid/sizes) are modelled as `Nat`: in every
arithmetic operation performed by the code the Go `uint32` operations cannot
wrap (additions are guarded by `uid < size` with `size ≤ 2^32-1`, and the
single subtraction `size - uid` is guarded by `uid < size`), so the `Nat`
semantics coincides with the `uint32` semantics on all representable inputs.
-/

namespace Apptainer

/-! ## Definitions -/

/-- A `specs.LinuxIDMapping` triple (ContainerID, HostID, Size). -/
structure LinuxIDMapping where
  containerID : Nat
  hostID : Nat
  size : Nat
deriving DecidableEq, Repr

/-- Result of the external `fakeroot.GetIDRange` lookup: a subordinate id
range. Only its `Size` field is consulted by `getReverseUserMaps`. -/
structure IDRange where
  size : Nat
deriving DecidableEq, Repr

/-- The mapping-list construction that `getReverseUserMaps` performs, written
out verbatim twice in the source (once for the uid at lines 150-181, once for
the gid at lines 183-214, with `id`/`size` the respective uid/gid and
subordinate range size). -/
def mkReverseMap (id size : Nat) : List LinuxIDMapping :=
  if id < size then
    [ { containerID := 0, hostID := 1, size := id },
      { containerID := id, hostID := 0, size := 1 },
      { containerID := id + 1, hostID := id + 1, size := size - id } ]
  else
    [ { containerID := 0, hostID := 1, size := size },
      { containerID := id, hostID := 0, size := 1 } ]

/-- `getReverseUserMaps` (process.go lines 130-217). The two external
`fakeroot.GetIDRange` lookups are passed in as their `Except` results. -/
def getReverseUserMaps (uid gid : Nat)
    (subuidLookup subgidLookup : Except String IDRange) :
    Except String (List LinuxIDMapping × List LinuxIDMapping) :=
  match subuidLookup with
  | .error e => .error e
  | .ok subuidRange =>
    if subuidRange.size < 65536 then
      .error ("subuid range size (" ++ toString subuidRange.size ++
        ") must be at least 65536")
    else
      match subgidLookup with
      | .error e => .error e
      | .ok subgidRange =>
        if subgidRange.size < 65536 then
          .error ("subuid range size (" ++ toString subgidRange.size ++
            ") must be at least 65536")
        else
          .ok (mkReverseMap uid subuidRange.size, mkReverseMap gid subgidRange.size)

/-- Whether container id `c` is covered by some range of the mapping. -/
def coveredB (m : List LinuxIDMapping) (c : Nat) : Bool :=
  m.any fun r => r.containerID ≤ c && c < r.containerID + r.size

/-- Decode a container id through the mapping: the host id given by the first
range containing it. -/
def decodeHost (m : List LinuxIDMapping) (c : Nat) : Option Nat :=
  match m with
  | [] => none
  | r :: t =>
    if r.containerID ≤ c && c < r.containerID + r.size then
      some (r.hostID + (c - r.containerID))
    else
      decodeHost t c

/-- Two mapping entries have disjoint container-side ranges. -/
def rangesDisjoint (a b : LinuxIDMapping) : Prop :=
  a.containerID + a.size ≤ b.containerID ∨ b.containerID + b.size ≤ a.containerID

/-- The properties of a single produced mapping asserted by the coverage
claim, with the container-side union as the code actually produces it. -/
def GoodRevMap (id size : Nat) : Prop :=
  (mkReverseMap id size).Pairwise rangesDisjoint
  ∧ coveredB (mkReverseMap id size) 0 = true
  ∧ decodeHost (mkReverseMap id size) 0 = some 1
  ∧ ∀ c, (coveredB (mkReverseMap id size) c = true ↔
      (if id < size then c < size + 1 else (c < size ∨ c = id)))

/-- Container-side strings of process.go are modelled as lists of characters,
so that prefix/substring manipulation can be reasoned about directly. -/
abbrev Str := List Char

/-- The `Config` part of an OCI image spec (`imgspecv1.Image.Config`):
entrypoint, cmd and declared environment. -/
structure ImageConfig where
  entrypoint : List Str
  cmd : List Str
  env : List Str
deriving DecidableEq, Repr

/-- An OCI image spec (`imgspecv1.Image`), reduced to the fields the code
reads. -/
structure ImageSpec where
  config : ImageConfig
deriving DecidableEq, Repr

/-- `getProcessArgs` (process.go lines 75-93). The empty string is the empty
character list. -/
def getProcessArgs (imageSpec : ImageSpec) (process : Str) (args : List Str) :
    List Str :=
  let processArgs :=
    if process ≠ [] then [process] else imageSpec.config.entrypoint
  if args.length > 0 then
    processArgs ++ args
  else
    if process = [] then processArgs ++ imageSpec.config.cmd else processArgs

/-- Modelled from the spec: the fixed runtime state root directory passed as
the `--root` argument of every external runtime invocation (`RuncStateDir`;
its defining constant is outside the excerpt). -/
def RuncStateDir : String := "/run/apptainer/oci"

/-- Modelled from the spec: the name of the bundle symlink inside a
container's state directory (state layout `stateRoot/containerID/bundle`). -/
def bundleLink : String := "bundle"

/-- The external effects `OciDelete` performs, passed in as their results:
`bin.FindBin("runc")`, running the runc subprocess, `stateDir`,
`filepath.EvalSymlinks`, `os.Remove` and `releaseBundle`. -/
structure DeleteOps where
  findRunc : Except String String
  runRunc : List String → Except String Unit
  stateDir : String → Except String String
  evalSymlinks : String → Except String String
  removeFile : String → Except String Unit
  releaseBundle : String → Except String Unit

/-- Observable side effects of `OciDelete`, in the order they happen. -/
inductive DeleteAction where
  | runcInvoked (args : List String)
  | symlinkResolved (path : String)
  | symlinkRemoved (path : String)
  | lockReleased (bundle : String)
deriving DecidableEq, Repr

/-- The argument vector `OciDelete` passes to runc (delete.go lines 29-33). -/
def runcDeleteArgs (containerID : String) : List String :=
  [ "--root", RuncStateDir, "delete", containerID ]

/-- `OciDelete` (delete.go lines 24-63), with its external effects supplied
by `ops` and the successful effects recorded in order. -/
def OciDelete (ops : DeleteOps) (containerID : String) :
    Except String Unit × List DeleteAction :=
  match ops.findRunc with
  | .error e => (.error e, [])
  | .ok _ =>
    let runcArgs := runcDeleteArgs containerID
    match ops.runRunc runcArgs with
    | .error e =>
      (.error ("while calling runc delete: " ++ e), [.runcInvoked runcArgs])
    | .ok _ =>
      match ops.stateDir containerID with
      | .error e =>
        (.error ("while computing state directory: " ++ e),
          [.runcInvoked runcArgs])
      | .ok sd =>
        let bLink := sd ++ "/" ++ bundleLink
        match ops.evalSymlinks bLink with
        | .error e =>
          (.error ("while finding bundle directory: " ++ e),
            [.runcInvoked runcArgs])
        | .ok bundle =>
          match ops.removeFile bLink with
          | .error e =>
            (.error ("while removing bundle symlink: " ++ e),
              [.runcInvoked runcArgs, .symlinkResolved bLink])
          | .ok _ =>
            match ops.releaseBundle bundle with
            | .error e =>
              (.error e,
                [.runcInvoked runcArgs, .symlinkResolved bLink,
                  .symlinkRemoved bLink])
            | .ok _ =>
              (.ok (),
                [.runcInvoked runcArgs, .symlinkResolved bLink,
                  .symlinkRemoved bLink, .lockReleased bundle])

/-- A `specs.LinuxDevice` node contributed by a CDI device. -/
structure LinuxDevice where
  path : String
  devType : String
  major : Int
  minor : Int
deriving DecidableEq, Repr

/-- A `specs.Mount` (source, destination, type, options). -/
structure Mount where
  source : String
  destination : String
  mountType : String
  options : List String
deriving DecidableEq, Repr

/-- Modelled from the spec: what a resolved CDI device name declares — device
nodes, mounts and environment variables to inject. -/
structure CDIResolved where
  devices : List LinuxDevice
  mounts : List Mount
  env : List String
deriving DecidableEq, Repr

/-- The bundle spec fields `addCDIDevices` mutates. -/
structure OCISpec where
  devices : List LinuxDevice
  mounts : List Mount
  env : List String
deriving DecidableEq, Repr

/-- Mount order used by the underlying CDI library: by destination path. -/
def mountLE (a b : Mount) : Prop := a.destination ≤ b.destination

instance : DecidableRel mountLE := fun a b =>
  inferInstanceAs (Decidable (a.destination ≤ b.destination))

instance : IsTotal Mount mountLE :=
  ⟨fun a b => le_total a.destination b.destination⟩

instance : IsTrans Mount mountLE :=
  ⟨fun _ _ _ hab hbc => le_trans hab hbc⟩

/-- Modelled from the spec: resolution of the named devices in the order
given against the configured CDI spec directories (the registry is the
`resolve` parameter); an unknown name fails immediately with a
device-not-found error. `addCDIDevices` itself is not part of the excerpt;
only its test is. -/
def resolveCDIDevices (resolve : String → Option CDIResolved) :
    List String → Except String (List CDIResolved)
  | [] => .ok []
  | d :: rest =>
    match resolve d with
    | none => .error ("device not found: " ++ d)
    | some r =>
      match resolveCDIDevices resolve rest with
      | .error e => .error e
      | .ok rs => .ok (r :: rs)

/-- Modelled from the spec: `addCDIDevices` resolves every name and, on full
success only, returns the spec with all contributed devices and environment
variables appended and the mounts merged and sorted by destination path by
the underlying library (duplicate destinations kept as distinct entries). -/
def addCDIDevices (resolve : String → Option CDIResolved) (spec : OCISpec)
    (devices : List String) : Except String OCISpec :=
  match resolveCDIDevices resolve devices with
  | .error e => .error e
  | .ok rs =>
    .ok
      { devices := spec.devices ++ (rs.map CDIResolved.devices).flatten
        mounts :=
          List.insertionSort mountLE
            (spec.mounts ++ (rs.map CDIResolved.mounts).flatten)
        env := spec.env ++ (rs.map CDIResolved.env).flatten }

/-- Boolean string-prefix test on character lists. -/
def isPrefixB : Str → Str → Bool
  | [], _ => true
  | _ :: _, [] => false
  | a :: as, b :: bs => a = b && isPrefixB as bs

/-- `strings.Contains`: whether `pat` occurs as a contiguous substring. -/
def containsB (pat : Str) : Str → Bool
  | [] => isPrefixB pat []
  | l@(_ :: t) => isPrefixB pat l || containsB pat t

/-- Number of positions at which `pat` occurs as a contiguous substring. -/
def countOcc (pat : Str) : Str → Nat
  | [] => if isPrefixB pat [] then 1 else 0
  | l@(_ :: t) => (if isPrefixB pat l then 1 else 0) + countOcc pat t

/-- `strings.TrimPrefix(s, ":")`: drop one leading colon if present. -/
def trimColon : Str → Str
  | [] => []
  | c :: t => if c = ':' then t else c :: t

/-- `strings.SplitN(e, "=", 2)`: key before the first `=`, value after;
`none` when the entry contains no `=` (the code skips such entries). -/
def splitEq : Str → Option (Str × Str)
  | [] => none
  | c :: t =>
    if c = '=' then some ([], t)
    else
      match splitEq t with
      | some kv => some (c :: kv.1, kv.2)
      | none => none

def pathKey : Str := "PATH".data

def appendPathKey : Str := "APPEND_PATH".data

def prependPathKey : Str := "PREPEND_PATH".data

def ldLibraryPathKey : Str := "LD_LIBRARY_PATH".data

/-- The `apptainerLibs` constant: `/.singularity.d/libs`. -/
def apptainerLibs : Str := "/.singularity.d/libs".data

/-- Modelled from the spec: `generate.SetProcessEnv` of the bundle generator
(outside the excerpt) — the environment list keeps variable names unique in
first-seen order, so a write replaces the first entry of the same name and
otherwise appends. -/
def setProcessEnv (k v : Str) : List Str → List Str
  | [] => [k ++ ('=' :: v)]
  | e :: rest =>
    if isPrefixB (k ++ [ '=' ]) e then (k ++ ('=' :: v)) :: rest
    else e :: setProcessEnv k v rest

/-- Value of variable `name` in a `KEY=VALUE` environment list (first
matching entry). -/
def envLookup (name : Str) : List Str → Option Str
  | [] => none
  | e :: rest =>
    if isPrefixB (name ++ [ '=' ]) e then some (e.drop (name.length + 1))
    else envLookup name rest

/-- The image-config extraction loop of `getProcessEnv` (lines 233-244):
value of the last well-formed `name=` entry, empty if none. -/
def imageEnvVal (name : Str) (imageEnv : List Str) : Str :=
  imageEnv.foldl
    (fun acc e =>
      match splitEq e with
      | some kv => if kv.1 = name then kv.2 else acc
      | none => acc)
    []

/-- State threaded through the runtime-env loop of `getProcessEnv`:
the generator's env list and the four specially-handled variables. -/
structure EnvAcc where
  g : List Str
  path : Str
  appendPath : Str
  prependPath : Str
  ldLibraryPath : Str
deriving DecidableEq, Repr

/-- One iteration of the runtime-env switch of `getProcessEnv`
(lines 247-260). -/
def applyRuntimeVar (acc : EnvAcc) (kv : Str × Str) : EnvAcc :=
  if kv.1 = pathKey then { acc with path := kv.2 }
  else if kv.1 = appendPathKey then { acc with appendPath := kv.2 }
  else if kv.1 = prependPathKey then { acc with prependPath := kv.2 }
  else if kv.1 = ldLibraryPathKey then { acc with ldLibraryPath := kv.2 }
  else { acc with g := setProcessEnv kv.1 kv.2 acc.g }

/-- The `LD_LIBRARY_PATH` post-processing of `getProcessEnv`
(lines 273-277). -/
def ensureApptainerLibs (ld : Str) : Str :=
  if containsB apptainerLibs ld then ld
  else trimColon (ld ++ (':' :: apptainerLibs))

/-- `getProcessEnv` (process.go lines 222-280). The Go map `runtimeEnv` is
modelled as an association list iterated in order; the generator's env list
starts as the image config env. -/
def getProcessEnv (imageSpec : ImageSpec) (runtimeEnv : List (Str × Str)) :
    List Str :=
  let acc0 : EnvAcc :=
    { g := imageSpec.config.env
      path := imageEnvVal pathKey imageSpec.config.env
      appendPath := []
      prependPath := []
      ldLibraryPath := imageEnvVal ldLibraryPathKey imageSpec.config.env }
  let acc := runtimeEnv.foldl applyRuntimeVar acc0
  let path1 :=
    if acc.appendPath ≠ [] then acc.path ++ (':' :: acc.appendPath)
    else acc.path
  let path2 :=
    if acc.prependPath ≠ [] then acc.prependPath ++ (':' :: path1)
    else path1
  let g1 := if path2 ≠ [] then setProcessEnv pathKey path2 acc.g else acc.g
  setProcessEnv ldLibraryPathKey (ensureApptainerLibs acc.ldLibraryPath) g1

/-- `env.ApptainerPrefix ++ "CONTAINER"` — the container name variable of
`defaultEnv`. -/
def containerEnvKey : Str := "APPTAINER_CONTAINER".data

/-- `env.ApptainerPrefix ++ "NAME"` — the image name variable of
`defaultEnv`. -/
def nameEnvKey : Str := "APPTAINER_NAME".data

/-- `defaultEnv` (process.go lines 283-288). -/
def defaultEnv (image bundle : Str) : List (Str × Str) :=
  [ (containerEnvKey, bundle), (nameEnvKey, image) ]

/-- Update one key of an association list in place, appending if absent. -/
def updateEnvMap : List (Str × Str) → Str → Str → List (Str × Str)
  | [], k, v => [(k, v)]
  | kv :: t, k, v =>
    if kv.1 = k then (k, v) :: t else kv :: updateEnvMap t k v

/-- Modelled from the spec: `mergeMap` (outside the excerpt) — the
deterministic last-writer-wins merge of environment maps; the override map's
entries overwrite the base key-for-key. -/
def mergeMap (base override : List (Str × Str)) : List (Str × Str) :=
  override.foldl (fun acc kv => updateEnvMap acc kv.1 kv.2) base

/-- A `specs.User`: uid and primary gid. -/
structure User where
  uid : Nat
  gid : Nat
deriving DecidableEq, Repr

/-- A `specs.Process`, reduced to the fields `getProcess` sets. -/
structure ProcessSpec where
  args : List Str
  cwd : Str
  env : List Str
  user : User
  terminal : Bool
deriving DecidableEq, Repr

/-- `getProcessUser` (process.go lines 98-109); the host uid/gid reads are
inputs. -/
def getProcessUser (fakeroot : Bool) (hostUid hostGid : Nat) : User :=
  if fakeroot then User.mk 0 0 else User.mk hostUid hostGid

/-- `getProcessCwd` (process.go lines 113-123); the current-user lookup is an
input. -/
def getProcessCwd (fakeroot : Bool) (userLookup : Except String Str) :
    Except String Str :=
  if fakeroot then .ok ("/root".data)
  else
    match userLookup with
    | .error e => .error e
    | .ok dir => .ok dir

/-- The runtime-env assembly of `getProcess` (process.go lines 34-46):
`defaultEnv` first, then the `APPTAINERENV_` map, then the env-file map (only
when an env-file is configured; its evaluation may fail), then the `--env`
map, each merged with last-writer-wins precedence. -/
def buildRtEnv (envFile : String) (cfgEnv osEnv : List (Str × Str))
    (envFileResult : Except String (List (Str × Str)))
    (image bundle : Str) : Except String (List (Str × Str)) :=
  let rtEnv1 := mergeMap (defaultEnv image bundle) osEnv
  match (if envFile = "" then Except.ok rtEnv1
         else Except.map (fun e => mergeMap rtEnv1 e) envFileResult) with
  | .error e => .error e
  | .ok rtEnv2 => .ok (mergeMap rtEnv2 cfgEnv)

/-- `getProcess` (process.go lines 31-62). The OS environment scan
(`apptainerEnvMap`), env-file evaluation (`envFileMap`), user lookup and
terminal detection are passed in as their results; `envFile` and `cfgEnv` are
the launcher config fields `EnvFile` and `Env`. -/
def getProcess (envFile : String) (cfgEnv : List (Str × Str)) (fakeroot : Bool)
    (osEnv : List (Str × Str))
    (envFileResult : Except String (List (Str × Str)))
    (userLookup : Except String Str) (terminal : Bool)
    (hostUid hostGid : Nat) (imgSpec : ImageSpec)
    (image bundle process : Str) (args : List Str) :
    Except String ProcessSpec :=
  match buildRtEnv envFile cfgEnv osEnv envFileResult image bundle with
  | .error e => .error e
  | .ok rtEnv =>
    match getProcessCwd fakeroot userLookup with
    | .error e => .error e
    | .ok cwd =>
      .ok (ProcessSpec.mk (getProcessArgs imgSpec process args) cwd
        (getProcessEnv imgSpec rtEnv)
        (getProcessUser fakeroot hostUid hostGid) terminal)

/-- Whether a runtime-env key receives special handling in `getProcessEnv`'s
switch. -/
def isSpecialKey (k : Str) : Bool :=
  k = pathKey || k = appendPathKey || k = prependPathKey || k = ldLibraryPathKey

/-- The generator-env component of the runtime-env loop in isolation:
non-special keys are written via `setProcessEnv`, special ones skipped. -/
def foldG : List (Str × Str) → List Str → List Str
  | [], g => g
  | kv :: t, g =>
    foldG t (if isSpecialKey kv.1 then g else setProcessEnv kv.1 kv.2 g)

/-- Value of the last entry of an association list with the given key. -/
def lastValO (name : Str) : List (Str × Str) → Option Str
  | [] => none
  | kv :: t =>
    match lastValO name t with
    | some v => some v
    | none => if kv.1 = name then some kv.2 else none

/-- Value of the last entry with the given key, with a default. -/
def lastVal (name : Str) : List (Str × Str) → Str → Str
  | [], d => d
  | kv :: t, d => lastVal name t (if kv.1 = name then kv.2 else d)

/-- The final `PATH` value the merge produces, as described by the spec save
that an empty base `PATH` still contributes (its separator is kept): the base
is the last `PATH` value across sources, `APPEND_PATH`/`PREPEND_PATH`
segments with separators are added only when non-empty. -/
def expectedPath (imgSpec : ImageSpec) (re : List (Str × Str)) : Str :=
  let base := lastVal pathKey re (imageEnvVal pathKey imgSpec.config.env)
  let ap := lastVal appendPathKey re []
  let pp := lastVal prependPathKey re []
  let p1 := if ap ≠ [] then base ++ (':' :: ap) else base
  if pp ≠ [] then pp ++ (':' :: p1) else p1

/-! ## Theorems -/

@[simp] lemma idRange_size_mk (n : Nat) : (IDRange.mk n).size = n := rfl

@[simp] lemma idMapping_containerID_mk (a b c : Nat) :
    (LinuxIDMapping.mk a b c).containerID = a := rfl

@[simp] lemma idMapping_hostID_mk (a b c : Nat) :
    (LinuxIDMapping.mk a b c).hostID = b := rfl

@[simp] lemma idMapping_size_mk (a b c : Nat) :
    (LinuxIDMapping.mk a b c).size = c := rfl

lemma pairwise_two {r1 r2 : LinuxIDMapping} (h12 : rangesDisjoint r1 r2) :
    List.Pairwise rangesDisjoint [r1, r2] := by
  refine List.Pairwise.cons ?_ (List.Pairwise.cons ?_ List.Pairwise.nil)
  · intro b hb
    rcases List.mem_singleton.mp hb with h
    exact h ▸ h12
  · intro b hb
    exact absurd hb (List.not_mem_nil b)

lemma pairwise_three {r1 r2 r3 : LinuxIDMapping} (h12 : rangesDisjoint r1 r2)
    (h13 : rangesDisjoint r1 r3) (h23 : rangesDisjoint r2 r3) :
    List.Pairwise rangesDisjoint [r1, r2, r3] := by
  refine List.Pairwise.cons ?_ (pairwise_two h23)
  intro b hb
  rcases List.mem_cons.mp hb with h | hb
  · exact h ▸ h12
  · rcases List.mem_singleton.mp hb with h
    exact h ▸ h13

lemma goodRevMap (id size : Nat) (h : 65536 ≤ size) (h0 : 0 < id) :
    GoodRevMap id size := by
  unfold GoodRevMap mkReverseMap
  by_cases hc : id < size
  · rw [if_pos hc]
    refine ⟨?_, ?_, ?_, ?_⟩
    · refine pairwise_three ?_ ?_ ?_ <;>
        (simp only [rangesDisjoint, idMapping_containerID_mk,
          idMapping_size_mk]; omega)
    · simp only [coveredB, List.any_cons, List.any_nil, Bool.or_eq_true,
        Bool.and_eq_true, decide_eq_true_eq, Bool.false_eq_true, or_false,
        idMapping_containerID_mk, idMapping_size_mk]
      omega
    · simp only [decodeHost, idMapping_containerID_mk,
        idMapping_hostID_mk, idMapping_size_mk]
      rw [if_pos (by simp only [Bool.and_eq_true, decide_eq_true_eq]; omega)]
    · intro c
      rw [if_pos hc]
      simp only [coveredB, List.any_cons, List.any_nil, Bool.or_eq_true,
        Bool.and_eq_true, decide_eq_true_eq, Bool.false_eq_true, or_false,
        idMapping_containerID_mk, idMapping_size_mk]
      omega
  · rw [if_neg hc]
    refine ⟨?_, ?_, ?_, ?_⟩
    · refine pairwise_two ?_
      simp only [rangesDisjoint, idMapping_containerID_mk,
        idMapping_size_mk]
      omega
    · simp only [coveredB, List.any_cons, List.any_nil, Bool.or_eq_true,
        Bool.and_eq_true, decide_eq_true_eq, Bool.false_eq_true, or_false,
        idMapping_containerID_mk, idMapping_size_mk]
      omega
    · simp only [decodeHost, idMapping_containerID_mk,
        idMapping_hostID_mk, idMapping_size_mk]
      rw [if_pos (by simp only [Bool.and_eq_true, decide_eq_true_eq]; omega)]
    · intro c
      rw [if_neg hc]
      simp only [coveredB, List.any_cons, List.any_nil, Bool.or_eq_true,
        Bool.and_eq_true, decide_eq_true_eq, Bool.false_eq_true, or_false,
        idMapping_containerID_mk, idMapping_size_mk]
      omega

lemma getReverseUserMaps_ok (uid gid usize gsize : Nat)
    (hu : 65536 ≤ usize) (hg : 65536 ≤ gsize) :
    getReverseUserMaps uid gid (.ok ⟨usize⟩) (.ok ⟨gsize⟩)
      = .ok (mkReverseMap uid usize, mkReverseMap gid gsize) := by
  simp only [getReverseUserMaps, idRange_size_mk]
  rw [if_neg (by omega), if_neg (by omega)]

/-- Claim C1, as stated, is false on the code: for host uid 1001 and
subordinate range size 65536 the union of the produced container-side ranges
is not `[0, 65536)` — container id 65536 is also covered (the third range has
size `rangeSize - uid`, reaching one past `rangeSize`). -/
theorem c1_counterexample :
    ¬ (∀ c : Nat, coveredB (mkReverseMap 1001 65536) c = true ↔ c < 65536) := by
  intro h
  have h1 : coveredB (mkReverseMap 1001 65536) 65536 = true := by decide
  exact absurd ((h 65536).mp h1) (by decide)

/-- Claim C1 (amended): for every positive host uid/gid with subordinate range
size at least 65536, the uid and gid mappings produced by `getReverseUserMaps`
have pairwise-disjoint container-side ranges, always include container id 0,
map container id 0 to host id 1, and their union is `[0, rangeSize+1)` when
the id is below the range size (one past the claimed `[0, rangeSize)`), and
`[0, rangeSize) ∪ {id}` otherwise. -/
theorem c1_amended (uid gid usize gsize : Nat)
    (hu : 65536 ≤ usize) (hg : 65536 ≤ gsize)
    (hu0 : 0 < uid) (hg0 : 0 < gid) :
    getReverseUserMaps uid gid (.ok ⟨usize⟩) (.ok ⟨gsize⟩)
      = .ok (mkReverseMap uid usize, mkReverseMap gid gsize)
    ∧ GoodRevMap uid usize ∧ GoodRevMap gid gsize :=
  ⟨getReverseUserMaps_ok uid gid usize gsize hu hg,
    goodRevMap uid usize hu hu0, goodRevMap gid gsize hg hg0⟩

/-- Claim C1 witness at host uid/gid 1001, range size 65536. -/
theorem c1_amended_witness :
    (65536 ≤ 65536) ∧ (0 < 1001) ∧
    (getReverseUserMaps 1001 1001 (.ok ⟨65536⟩) (.ok ⟨65536⟩)
        = .ok (mkReverseMap 1001 65536, mkReverseMap 1001 65536)
      ∧ GoodRevMap 1001 65536 ∧ GoodRevMap 1001 65536) :=
  ⟨by omega, by omega,
    c1_amended 1001 1001 65536 65536 (by omega) (by omega) (by omega) (by omega)⟩

/-- Claim C2, as stated, is false on the code: at id 1001 and range size
65536 the third produced range has size `65536 - 1001 = 64535`, i.e. covers
container ids `[1002, 65537)`, not `[1002, 65536)` (size 64534) as the claim
requires. -/
theorem c2_counterexample :
    ¬ (mkReverseMap 1001 65536 =
      [ ⟨0, 1, 1001⟩, ⟨1001, 0, 1⟩, ⟨1002, 1002, 64534⟩ ]) := by
  decide

/-- Claim C2 (amended): for every id and rangeSize with rangeSize ≥ 65536,
the produced mapping has exactly three ranges when `id < rangeSize` —
container `[0, id)` ← host `[1, 1+id)`, container `[id, id+1)` ← host
`[0, 1)`, and container `[id+1, id+1+(rangeSize-id))` ← host the same (the
last range has size `rangeSize - id`, not `rangeSize - id - 1`) — and exactly
two ranges when `id ≥ rangeSize`: container `[0, rangeSize)` ← host
`[1, 1+rangeSize)` and container `[id, id+1)` ← host `[0, 1)`. -/
theorem c2_amended (id size : Nat) (h : 65536 ≤ size) :
    getReverseUserMaps id id (.ok ⟨size⟩) (.ok ⟨size⟩)
      = .ok (mkReverseMap id size, mkReverseMap id size)
    ∧ (id < size → mkReverseMap id size =
        [ ⟨0, 1, id⟩, ⟨id, 0, 1⟩, ⟨id + 1, id + 1, size - id⟩ ])
    ∧ (size ≤ id → mkReverseMap id size = [ ⟨0, 1, size⟩, ⟨id, 0, 1⟩ ]) := by
  refine ⟨getReverseUserMaps_ok id id size size h h, ?_, ?_⟩
  · intro hlt
    unfold mkReverseMap
    rw [if_pos hlt]
  · intro hge
    unfold mkReverseMap
    rw [if_neg (by omega)]

/-- Claim C2 witness: the three-range shape at id 1001 and the two-range
shape at id 70000, both with range size 65536. -/
theorem c2_amended_witness :
    (65536 ≤ 65536) ∧
    (mkReverseMap 1001 65536 =
      [ ⟨0, 1, 1001⟩, ⟨1001, 0, 1⟩, ⟨1002, 1002, 64535⟩ ]) ∧
    (mkReverseMap 70000 65536 = [ ⟨0, 1, 65536⟩, ⟨70000, 0, 1⟩ ]) :=
  ⟨by omega,
    by
      have h := (c2_amended 1001 65536 (by omega)).2.1 (by omega)
      simpa using h,
    by
      have h := (c2_amended 70000 65536 (by omega)).2.2 (by omega)
      simpa using h⟩

/-- Claim C3: if either subordinate range has size below 65536,
`getReverseUserMaps` fails with an error and returns no mapping; neither
mapping is computed. -/
theorem c3_range_too_small (uid gid : Nat) (ur gr : IDRange)
    (h : ur.size < 65536 ∨ gr.size < 65536) :
    ∃ msg, getReverseUserMaps uid gid (.ok ur) (.ok gr) = .error msg := by
  simp only [getReverseUserMaps]
  by_cases hu : ur.size < 65536
  · rw [if_pos hu]
    exact ⟨_, rfl⟩
  · rw [if_neg hu]
    have hg : gr.size < 65536 := by tauto
    rw [if_pos hg]
    exact ⟨_, rfl⟩

/-- Claim C3 witness: subordinate uid range of size 65535 (one less than the
minimum) causes failure. -/
theorem c3_range_too_small_witness :
    ((IDRange.mk 65535).size < 65536 ∨ (IDRange.mk 65536).size < 65536) ∧
    ∃ msg, getReverseUserMaps 1001 1001 (.ok ⟨65535⟩) (.ok ⟨65536⟩)
      = .error msg :=
  ⟨Or.inl (by decide),
    c3_range_too_small 1001 1001 ⟨65535⟩ ⟨65536⟩ (Or.inl (by decide))⟩

/-- Claim C6: if the explicit process string is non-empty, argv starts with
that single token, otherwise with the image entrypoint; non-empty trailing
arguments are appended; the image cmd tokens are appended only when the
trailing arguments are empty and the process string is empty. -/
theorem c6_process_args (imageSpec : ImageSpec) (process : Str)
    (args : List Str) :
    getProcessArgs imageSpec process args =
      (if process = [] then imageSpec.config.entrypoint else [process])
      ++ (if args ≠ [] then args
          else if process = [] then imageSpec.config.cmd else []) := by
  unfold getProcessArgs
  by_cases hp : process = [] <;> by_cases ha : args = [] <;>
    simp [hp, ha, List.length_pos]

/-- Claim C5: `OciDelete` invokes the external runtime only with the fixed
state root as `--root`; if the runc delete invocation fails the operation
errors before resolving or removing the bundle symlink or releasing the lock;
on overall success the symlink is resolved, removed, and the lock released,
in that order. -/
theorem c5_delete (ops : DeleteOps) (cid : String) :
    (∀ args, DeleteAction.runcInvoked args ∈ (OciDelete ops cid).2 →
      args = runcDeleteArgs cid)
    ∧ (∀ e, ops.runRunc (runcDeleteArgs cid) = .error e →
        (∃ msg, (OciDelete ops cid).1 = .error msg)
        ∧ (∀ p, DeleteAction.symlinkResolved p ∉ (OciDelete ops cid).2)
        ∧ (∀ p, DeleteAction.symlinkRemoved p ∉ (OciDelete ops cid).2)
        ∧ (∀ b, DeleteAction.lockReleased b ∉ (OciDelete ops cid).2))
    ∧ ((OciDelete ops cid).1 = .ok () →
        ∃ sd bundle, ops.stateDir cid = .ok sd
          ∧ ops.evalSymlinks (sd ++ "/" ++ bundleLink) = .ok bundle
          ∧ (OciDelete ops cid).2 =
              [ .runcInvoked (runcDeleteArgs cid),
                .symlinkResolved (sd ++ "/" ++ bundleLink),
                .symlinkRemoved (sd ++ "/" ++ bundleLink),
                .lockReleased bundle ]) := by
  cases hf : ops.findRunc with
  | error e =>
    simp only [OciDelete, hf]
    exact ⟨by simp, fun e2 h2 => ⟨⟨e, rfl⟩, by simp, by simp, by simp⟩, by simp⟩
  | ok rn =>
    cases hr : ops.runRunc (runcDeleteArgs cid) with
    | error e =>
      simp only [OciDelete, hf, hr]
      refine ⟨by simp, fun e2 h2 => ⟨⟨_, rfl⟩, by simp, by simp, by simp⟩, by simp⟩
    | ok u =>
      cases hs : ops.stateDir cid with
      | error e =>
        simp only [OciDelete, hf, hr, hs]
        exact ⟨by simp, fun e2 h2 => absurd h2 (by simp), by simp⟩
      | ok sd =>
        cases he : ops.evalSymlinks (sd ++ "/" ++ bundleLink) with
        | error e =>
          simp only [OciDelete, hf, hr, hs, he]
          exact ⟨by simp, fun e2 h2 => absurd h2 (by simp), by simp⟩
        | ok bundle =>
          cases hrm : ops.removeFile (sd ++ "/" ++ bundleLink) with
          | error e =>
            simp only [OciDelete, hf, hr, hs, he, hrm]
            exact ⟨by simp, fun e2 h2 => absurd h2 (by simp), by simp⟩
          | ok v =>
            cases hrel : ops.releaseBundle bundle with
            | error e =>
              simp only [OciDelete, hf, hr, hs, he, hrm, hrel]
              exact ⟨by simp, fun e2 h2 => absurd h2 (by simp), by simp⟩
            | ok w =>
              simp only [OciDelete, hf, hr, hs, he, hrm, hrel]
              exact ⟨by simp, fun e2 h2 => absurd h2 (by simp),
                fun _ => ⟨sd, bundle, rfl, he, rfl⟩⟩

/-- Claim C5 witness: with a failing runc delete invocation, the operation
errors and neither removes the bundle symlink nor releases the lock. -/
theorem c5_delete_witness :
    (DeleteOps.mk (.ok ("/usr/bin/runc")) (fun _ => .error ("boom"))
        (fun _ => .ok ("/sd")) (fun _ => .ok ("/bundle")) (fun _ => .ok ())
        (fun _ => .ok ())).runRunc (runcDeleteArgs ("c1")) = .error ("boom")
    ∧ ((∃ msg,
        (OciDelete (DeleteOps.mk (.ok ("/usr/bin/runc"))
          (fun _ => .error ("boom")) (fun _ => .ok ("/sd"))
          (fun _ => .ok ("/bundle")) (fun _ => .ok ()) (fun _ => .ok ()))
          ("c1")).1 = .error msg)
      ∧ (∀ p, DeleteAction.symlinkResolved p ∉
          (OciDelete (DeleteOps.mk (.ok ("/usr/bin/runc"))
            (fun _ => .error ("boom")) (fun _ => .ok ("/sd"))
            (fun _ => .ok ("/bundle")) (fun _ => .ok ()) (fun _ => .ok ()))
            ("c1")).2)
      ∧ (∀ p, DeleteAction.symlinkRemoved p ∉
          (OciDelete (DeleteOps.mk (.ok ("/usr/bin/runc"))
            (fun _ => .error ("boom")) (fun _ => .ok ("/sd"))
            (fun _ => .ok ("/bundle")) (fun _ => .ok ()) (fun _ => .ok ()))
            ("c1")).2)
      ∧ (∀ b, DeleteAction.lockReleased b ∉
          (OciDelete (DeleteOps.mk (.ok ("/usr/bin/runc"))
            (fun _ => .error ("boom")) (fun _ => .ok ("/sd"))
            (fun _ => .ok ("/bundle")) (fun _ => .ok ()) (fun _ => .ok ()))
            ("c1")).2)) :=
  ⟨rfl,
    (c5_delete (DeleteOps.mk (.ok ("/usr/bin/runc")) (fun _ => .error ("boom"))
      (fun _ => .ok ("/sd")) (fun _ => .ok ("/bundle")) (fun _ => .ok ())
      (fun _ => .ok ())) ("c1")).2.1 ("boom") rfl⟩

lemma resolveCDIDevices_error_of_none (resolve : String → Option CDIResolved)
    (devices : List String) (h : ∃ d ∈ devices, resolve d = none) :
    ∃ msg, resolveCDIDevices resolve devices = .error msg := by
  induction devices with
  | nil => simp at h
  | cons d rest ih =>
    rcases h with ⟨x, hx, hres⟩
    rcases List.mem_cons.mp hx with hxd | hxrest
    · subst hxd
      exact ⟨"device not found: " ++ x, by simp [resolveCDIDevices, hres]⟩
    · cases hd : resolve d with
      | none =>
        exact ⟨"device not found: " ++ d, by simp [resolveCDIDevices, hd]⟩
      | some r =>
        obtain ⟨msg, hmsg⟩ := ih ⟨x, hxrest, hres⟩
        exact ⟨msg, by simp [resolveCDIDevices, hd, hmsg]⟩

lemma resolveCDIDevices_ok_of_some (resolve : String → Option CDIResolved)
    (devices : List String) (h : ∀ d ∈ devices, (resolve d).isSome) :
    ∃ rs, resolveCDIDevices resolve devices = .ok rs := by
  induction devices with
  | nil => exact ⟨[], rfl⟩
  | cons d rest ih =>
    have hd := h d (List.mem_cons_self d rest)
    cases hdr : resolve d with
    | none => rw [hdr] at hd; simp at hd
    | some r =>
      obtain ⟨rs, hrs⟩ := ih fun x hx => h x (List.mem_cons_of_mem d hx)
      exact ⟨r :: rs, by simp [resolveCDIDevices, hdr, hrs]⟩

/-- Claim C4: a device-name list with at least one name the CDI registry
cannot resolve makes `addCDIDevices` return an error even if other names are
valid; a list of only valid names returns a successfully mutated spec and no
error. -/
theorem c4_all_or_nothing (resolve : String → Option CDIResolved)
    (spec : OCISpec) (devices : List String) :
    ((∃ d ∈ devices, resolve d = none) →
      ∃ msg, addCDIDevices resolve spec devices = .error msg)
    ∧ ((∀ d ∈ devices, (resolve d).isSome) →
      ∃ s, addCDIDevices resolve spec devices = .ok s) := by
  constructor
  · intro h
    obtain ⟨msg, hmsg⟩ := resolveCDIDevices_error_of_none resolve devices h
    exact ⟨msg, by simp [addCDIDevices, hmsg]⟩
  · intro h
    obtain ⟨rs, hrs⟩ := resolveCDIDevices_ok_of_some resolve devices h
    refine ⟨(OCISpec.mk (spec.devices ++ (rs.map CDIResolved.devices).flatten)
        (List.insertionSort mountLE
          (spec.mounts ++ (rs.map CDIResolved.mounts).flatten))
        (spec.env ++ (rs.map CDIResolved.env).flatten)), ?_⟩
    unfold addCDIDevices
    rw [hrs]

/-- Claim C4 witness: one unknown name among valid ones errors; only valid
names succeed. -/
theorem c4_all_or_nothing_witness :
    (∃ d ∈ ["vendor/class=good", "vendor/class=bad"],
      (fun n => if n = "vendor/class=good"
        then some (CDIResolved.mk [] [] []) else none) d = none)
    ∧ (∃ msg, addCDIDevices
        (fun n => if n = "vendor/class=good"
          then some (CDIResolved.mk [] [] []) else none)
        (OCISpec.mk [] [] [])
        ["vendor/class=good", "vendor/class=bad"] = .error msg)
    ∧ (∀ d ∈ ["vendor/class=good"],
        ((fun n => if n = "vendor/class=good"
          then some (CDIResolved.mk [] [] []) else none) d).isSome)
    ∧ (∃ s, addCDIDevices
        (fun n => if n = "vendor/class=good"
          then some (CDIResolved.mk [] [] []) else none)
        (OCISpec.mk [] [] []) ["vendor/class=good"] = .ok s) :=
  ⟨⟨"vendor/class=bad", by simp, by simp⟩,
    (c4_all_or_nothing _ (OCISpec.mk [] [] [])
        ["vendor/class=good", "vendor/class=bad"]).1
      ⟨"vendor/class=bad", by simp, by simp⟩,
    by simp,
    (c4_all_or_nothing _ (OCISpec.mk [] [] []) ["vendor/class=good"]).2
      (by simp)⟩

/-- Claim C9: with only valid device names, `addCDIDevices` succeeds and the
resulting mounts are sorted by destination path, are a permutation of the
existing mounts plus every device's contributed mounts in resolution order,
and keep mounts with duplicate destinations as distinct entries (every
mount's multiplicity is preserved). Determinism across repeated calls holds
because the result is a pure function of the inputs. -/
theorem c9_mounts_sorted (resolve : String → Option CDIResolved)
    (spec : OCISpec) (devices : List String)
    (h : ∀ d ∈ devices, (resolve d).isSome) :
    ∃ s rs, resolveCDIDevices resolve devices = .ok rs
      ∧ addCDIDevices resolve spec devices = .ok s
      ∧ List.Sorted mountLE s.mounts
      ∧ s.mounts.Perm (spec.mounts ++ (rs.map CDIResolved.mounts).flatten)
      ∧ ∀ m, s.mounts.count m
          = (spec.mounts ++ (rs.map CDIResolved.mounts).flatten).count m := by
  obtain ⟨rs, hrs⟩ := resolveCDIDevices_ok_of_some resolve devices h
  refine ⟨(OCISpec.mk (spec.devices ++ (rs.map CDIResolved.devices).flatten)
        (List.insertionSort mountLE
          (spec.mounts ++ (rs.map CDIResolved.mounts).flatten))
        (spec.env ++ (rs.map CDIResolved.env).flatten)), rs, hrs, ?_, ?_, ?_, ?_⟩
  · unfold addCDIDevices
    rw [hrs]
  · exact List.sorted_insertionSort mountLE _
  · exact List.perm_insertionSort mountLE _
  · intro m
    exact (List.perm_insertionSort mountLE _).count_eq m

/-- Claim C9 witness: two valid devices contributing mounts with the same
destination; both entries are kept and the result is destination-sorted. -/
theorem c9_mounts_sorted_witness :
    (∀ d ∈ ["vendor/class=d1", "vendor/class=d2"],
      ((fun n =>
        if n = "vendor/class=d1" then
          some (CDIResolved.mk [] [Mount.mk "/a" "/dup" "" ["rw"]] [])
        else if n = "vendor/class=d2" then
          some (CDIResolved.mk [] [Mount.mk "/b" "/dup" "" ["ro"]] [])
        else none) d).isSome)
    ∧ (∃ s rs,
        resolveCDIDevices
          (fun n =>
            if n = "vendor/class=d1" then
              some (CDIResolved.mk [] [Mount.mk "/a" "/dup" "" ["rw"]] [])
            else if n = "vendor/class=d2" then
              some (CDIResolved.mk [] [Mount.mk "/b" "/dup" "" ["ro"]] [])
            else none)
          ["vendor/class=d1", "vendor/class=d2"] = .ok rs
        ∧ addCDIDevices
            (fun n =>
              if n = "vendor/class=d1" then
                some (CDIResolved.mk [] [Mount.mk "/a" "/dup" "" ["rw"]] [])
              else if n = "vendor/class=d2" then
                some (CDIResolved.mk [] [Mount.mk "/b" "/dup" "" ["ro"]] [])
              else none)
            (OCISpec.mk [] [] []) ["vendor/class=d1", "vendor/class=d2"]
            = .ok s
        ∧ List.Sorted mountLE s.mounts
        ∧ s.mounts.Perm
            ((OCISpec.mk [] [] []).mounts
              ++ (rs.map CDIResolved.mounts).flatten)
        ∧ ∀ m, s.mounts.count m
            = ((OCISpec.mk [] [] []).mounts
                ++ (rs.map CDIResolved.mounts).flatten).count m) :=
  ⟨by simp,
    c9_mounts_sorted _ (OCISpec.mk [] [] [])
      ["vendor/class=d1", "vendor/class=d2"] (by simp)⟩

lemma isPrefixB_append_self (l m : Str) : isPrefixB l (l ++ m) = true := by
  induction l with
  | nil => rfl
  | cons a t ih => simp [isPrefixB, ih]

lemma isPrefixB_length_le (p : Str) :
    ∀ l, isPrefixB p l = true → p.length ≤ l.length := by
  induction p with
  | nil => intro l _; simp
  | cons a t ih =>
    intro l h
    cases l with
    | nil => simp [isPrefixB] at h
    | cons b l2 =>
      simp only [isPrefixB, Bool.and_eq_true, decide_eq_true_eq] at h
      have := ih l2 h.2
      simp only [List.length_cons]
      omega

lemma isPrefixB_iff_exists (p : Str) :
    ∀ l, isPrefixB p l = true ↔ ∃ t, l = p ++ t := by
  induction p with
  | nil => intro l; simp [isPrefixB]
  | cons a p2 ih =>
    intro l
    cases l with
    | nil =>
      simp only [isPrefixB, List.cons_append]
      constructor
      · intro h; exact absurd h (by simp)
      · rintro ⟨t, ht⟩; exact absurd ht (by simp)
    | cons b l2 =>
      simp only [isPrefixB, Bool.and_eq_true, decide_eq_true_eq,
        List.cons_append, List.cons.injEq]
      rw [ih l2]
      constructor
      · rintro ⟨rfl, t, ht⟩
        exact ⟨t, rfl, ht⟩
      · rintro ⟨t, rfl, ht⟩
        exact ⟨rfl, t, ht⟩

lemma key_eq_of_isPrefixB (n : Str) :
    ∀ (k v : Str), ('=' : Char) ∉ n → ('=' : Char) ∉ k →
      (isPrefixB (n ++ [ '=' ]) (k ++ ('=' :: v)) = true ↔ n = k) := by
  induction n with
  | nil =>
    intro k v _ hk
    cases k with
    | nil => simp [isPrefixB]
    | cons b k2 =>
      have hb : ¬ (('=' : Char) = b) := fun h => hk (by rw [h]; exact List.mem_cons_self b k2)
      simp [isPrefixB, hb]
  | cons a n2 ih =>
    intro k v hn hk
    cases k with
    | nil =>
      have ha : ¬ (a = ('=' : Char)) :=
        fun h => hn (by rw [← h]; exact List.mem_cons_self a n2)
      simp [isPrefixB, ha]
    | cons b k2 =>
      have hn2 : ('=' : Char) ∉ n2 := fun h => hn (List.mem_cons_of_mem a h)
      have hk2 : ('=' : Char) ∉ k2 := fun h => hk (List.mem_cons_of_mem b h)
      simp only [List.cons_append, isPrefixB, Bool.and_eq_true,
        decide_eq_true_eq, List.cons.injEq, List.append_eq]
      rw [ih k2 v hn2 hk2]

lemma drop_key_val (k v : Str) : (k ++ ('=' :: v)).drop (k.length + 1) = v := by
  have h : k ++ ('=' :: v) = (k ++ [ '=' ]) ++ v := by simp
  have h2 : (k ++ [ '=' ]).length = k.length + 1 := by simp
  rw [h, ← h2, List.drop_left]

lemma isPrefixB_key_self (k v : Str) :
    isPrefixB (k ++ [ '=' ]) (k ++ ('=' :: v)) = true := by
  have h : k ++ ('=' :: v) = (k ++ [ '=' ]) ++ v := by simp
  rw [h]
  exact isPrefixB_append_self _ _

lemma envLookup_setProcessEnv_self (k v : Str) :
    ∀ env, envLookup k (setProcessEnv k v env) = some v := by
  intro env
  induction env with
  | nil =>
    simp [setProcessEnv, envLookup, isPrefixB_key_self, drop_key_val]
  | cons e rest ih =>
    by_cases he : isPrefixB (k ++ [ '=' ]) e = true
    · simp [setProcessEnv, he, envLookup, isPrefixB_key_self, drop_key_val]
    · simp [setProcessEnv, he, envLookup, ih]

lemma envLookup_setProcessEnv_other (k v n : Str) (hk : ('=' : Char) ∉ k)
    (hn : ('=' : Char) ∉ n) (hne : n ≠ k) :
    ∀ env, envLookup n (setProcessEnv k v env) = envLookup n env := by
  have hnk : ¬ (isPrefixB (n ++ [ '=' ]) (k ++ ('=' :: v)) = true) :=
    fun h => hne ((key_eq_of_isPrefixB n k v hn hk).mp h)
  intro env
  induction env with
  | nil => simp [setProcessEnv, envLookup, hnk]
  | cons e rest ih =>
    by_cases he : isPrefixB (k ++ [ '=' ]) e = true
    · obtain ⟨t, ht⟩ := (isPrefixB_iff_exists _ _).mp he
      have het : e = k ++ ('=' :: t) := by rw [ht]; simp
      have hne2 : ¬ (isPrefixB (n ++ [ '=' ]) e = true) := by
        rw [het]
        exact fun h => hne ((key_eq_of_isPrefixB n k t hn hk).mp h)
      simp [setProcessEnv, he, envLookup, hnk, hne2]
    · simp [setProcessEnv, he, envLookup, ih]

lemma foldl_applyRuntimeVar (re : List (Str × Str)) :
    ∀ acc : EnvAcc,
      re.foldl applyRuntimeVar acc =
        EnvAcc.mk (foldG re acc.g) (lastVal pathKey re acc.path)
          (lastVal appendPathKey re acc.appendPath)
          (lastVal prependPathKey re acc.prependPath)
          (lastVal ldLibraryPathKey re acc.ldLibraryPath) := by
  induction re with
  | nil => intro acc; rfl
  | cons kv t ih =>
    intro acc
    rw [List.foldl_cons, ih]
    by_cases h1 : kv.1 = pathKey
    · simp [applyRuntimeVar, foldG, lastVal, isSpecialKey, h1,
        show ¬ (pathKey = appendPathKey) from by decide,
        show ¬ (pathKey = prependPathKey) from by decide,
        show ¬ (pathKey = ldLibraryPathKey) from by decide]
    · by_cases h2 : kv.1 = appendPathKey
      · simp [applyRuntimeVar, foldG, lastVal, isSpecialKey, h1, h2,
          show ¬ (appendPathKey = pathKey) from by decide,
          show ¬ (appendPathKey = prependPathKey) from by decide,
          show ¬ (appendPathKey = ldLibraryPathKey) from by decide]
      · by_cases h3 : kv.1 = prependPathKey
        · simp [applyRuntimeVar, foldG, lastVal, isSpecialKey, h1, h2, h3,
            show ¬ (prependPathKey = pathKey) from by decide,
            show ¬ (prependPathKey = appendPathKey) from by decide,
            show ¬ (prependPathKey = ldLibraryPathKey) from by decide]
        · by_cases h4 : kv.1 = ldLibraryPathKey
          · simp [applyRuntimeVar, foldG, lastVal, isSpecialKey, h1, h2, h3, h4,
              show ¬ (ldLibraryPathKey = pathKey) from by decide,
              show ¬ (ldLibraryPathKey = appendPathKey) from by decide,
              show ¬ (ldLibraryPathKey = prependPathKey) from by decide]
          · simp [applyRuntimeVar, foldG, lastVal, isSpecialKey, h1, h2, h3, h4]

lemma envLookup_foldG (n : Str) (hn : ('=' : Char) ∉ n)
    (hns : isSpecialKey n = false) :
    ∀ (re : List (Str × Str)) (g : List Str),
      (∀ kv ∈ re, ('=' : Char) ∉ kv.1) →
      envLookup n (foldG re g) =
        (match lastValO n re with
         | some v => some v
         | none => envLookup n g) := by
  intro re
  induction re with
  | nil => intro g _; rfl
  | cons kv t ih =>
    intro g hkeys
    have hk1 : ('=' : Char) ∉ kv.1 := hkeys kv (List.mem_cons_self kv t)
    have htkeys : ∀ p ∈ t, ('=' : Char) ∉ p.1 :=
      fun p hp => hkeys p (List.mem_cons_of_mem kv hp)
    rw [show foldG (kv :: t) g =
      foldG t (if isSpecialKey kv.1 then g else setProcessEnv kv.1 kv.2 g)
      from rfl]
    rw [ih _ htkeys]
    cases hlv : lastValO n t with
    | some v => simp [lastValO, hlv]
    | none =>
      simp only [lastValO, hlv]
      by_cases hsp : isSpecialKey kv.1 = true
      · have hne : ¬ (kv.1 = n) := by
          intro h
          rw [h] at hsp
          rw [hsp] at hns
          exact absurd hns (by simp)
        simp [hsp, hne]
      · have hspf : ¬ isSpecialKey kv.1 = true := hsp
        by_cases heq : kv.1 = n
        · rw [if_neg hspf, if_pos heq, heq, envLookup_setProcessEnv_self]
        · rw [if_neg hspf, if_neg heq,
            envLookup_setProcessEnv_other kv.1 kv.2 n hk1 hn
              (fun h => heq h.symm)]

lemma envLookup_foldG_special (n : Str) (hn : ('=' : Char) ∉ n)
    (hns : isSpecialKey n = true) :
    ∀ (re : List (Str × Str)) (g : List Str),
      (∀ kv ∈ re, ('=' : Char) ∉ kv.1) →
      envLookup n (foldG re g) = envLookup n g := by
  intro re
  induction re with
  | nil => intro g _; rfl
  | cons kv t ih =>
    intro g hkeys
    have hk1 : ('=' : Char) ∉ kv.1 := hkeys kv (List.mem_cons_self kv t)
    have htkeys : ∀ p ∈ t, ('=' : Char) ∉ p.1 :=
      fun p hp => hkeys p (List.mem_cons_of_mem kv hp)
    rw [show foldG (kv :: t) g =
      foldG t (if isSpecialKey kv.1 then g else setProcessEnv kv.1 kv.2 g)
      from rfl]
    rw [ih _ htkeys]
    by_cases hsp : isSpecialKey kv.1 = true
    · rw [if_pos hsp]
    · have hne : ¬ (n = kv.1) := by
        intro h
        rw [← h] at hsp
        exact hsp hns
      rw [if_neg hsp, envLookup_setProcessEnv_other kv.1 kv.2 n hk1 hn hne]

lemma getProcessEnv_eq (imgSpec : ImageSpec) (re : List (Str × Str)) :
    getProcessEnv imgSpec re =
      setProcessEnv ldLibraryPathKey
        (ensureApptainerLibs
          (lastVal ldLibraryPathKey re
            (imageEnvVal ldLibraryPathKey imgSpec.config.env)))
        (if expectedPath imgSpec re ≠ [] then
          setProcessEnv pathKey (expectedPath imgSpec re)
            (foldG re imgSpec.config.env)
        else foldG re imgSpec.config.env) := by
  simp only [getProcessEnv, expectedPath]
  rw [foldl_applyRuntimeVar]

/-- Claim C7, as stated, is false on the code: with no image `PATH` and an
`APPEND_PATH` override of `/b`, the produced `PATH` is `:/b` — the empty base
segment's separator is not omitted — where the claim requires `/b`. -/
theorem c7_counterexample :
    envLookup pathKey
      (getProcessEnv (ImageSpec.mk (ImageConfig.mk [] [] []))
        [ (appendPathKey, "/b".data) ])
      = some (":/b".data)
    ∧ ¬ (envLookup pathKey
        (getProcessEnv (ImageSpec.mk (ImageConfig.mk [] [] []))
          [ (appendPathKey, "/b".data) ])
        = some ("/b".data)) :=
  ⟨by decide, by decide⟩

/-- Claim C7 (amended): `APPEND_PATH` and `PREPEND_PATH` are never written
into the result environment (provided the image env does not itself declare
them); the final `PATH` equals
`PREPEND_PATH + ":" + basePATH + ":" + APPEND_PATH` where the `APPEND_PATH`
and `PREPEND_PATH` segments (with their separators) are omitted when empty
but an empty `basePATH` still keeps its separator, and `basePATH` is the
last `PATH` value seen across sources; in particular image `PATH=/a` with
`APPEND_PATH=/b` gives `/a:/b`, and additionally `PREPEND_PATH=/c` gives
`/c:/a:/b`. -/
theorem c7_amended (imgSpec : ImageSpec) (runtimeEnv : List (Str × Str))
    (hkeys : ∀ kv ∈ runtimeEnv, ('=' : Char) ∉ kv.1)
    (hA : envLookup appendPathKey imgSpec.config.env = none)
    (hP : envLookup prependPathKey imgSpec.config.env = none) :
    (expectedPath imgSpec runtimeEnv ≠ [] →
      envLookup pathKey (getProcessEnv imgSpec runtimeEnv)
        = some (expectedPath imgSpec runtimeEnv))
    ∧ envLookup appendPathKey (getProcessEnv imgSpec runtimeEnv) = none
    ∧ envLookup prependPathKey (getProcessEnv imgSpec runtimeEnv) = none := by
  rw [getProcessEnv_eq]
  refine ⟨?_, ?_, ?_⟩
  · intro hne
    rw [envLookup_setProcessEnv_other ldLibraryPathKey _ pathKey (by decide)
      (by decide) (by decide), if_pos hne]
    exact envLookup_setProcessEnv_self pathKey _ _
  · rw [envLookup_setProcessEnv_other ldLibraryPathKey _ appendPathKey
      (by decide) (by decide) (by decide)]
    by_cases hne : expectedPath imgSpec runtimeEnv ≠ []
    · rw [if_pos hne,
        envLookup_setProcessEnv_other pathKey _ appendPathKey (by decide)
          (by decide) (by decide),
        envLookup_foldG_special appendPathKey (by decide) (by decide)
          runtimeEnv _ hkeys, hA]
    · rw [if_neg hne,
        envLookup_foldG_special appendPathKey (by decide) (by decide)
          runtimeEnv _ hkeys, hA]
  · rw [envLookup_setProcessEnv_other ldLibraryPathKey _ prependPathKey
      (by decide) (by decide) (by decide)]
    by_cases hne : expectedPath imgSpec runtimeEnv ≠ []
    · rw [if_pos hne,
        envLookup_setProcessEnv_other pathKey _ prependPathKey (by decide)
          (by decide) (by decide),
        envLookup_foldG_special prependPathKey (by decide) (by decide)
          runtimeEnv _ hkeys, hP]
    · rw [if_neg hne,
        envLookup_foldG_special prependPathKey (by decide) (by decide)
          runtimeEnv _ hkeys, hP]

/-- Claim C7 witness: image `PATH=/a`, overrides `APPEND_PATH=/b` and
`PREPEND_PATH=/c` give final `PATH=/c:/a:/b` and no
`APPEND_PATH`/`PREPEND_PATH` entries. -/
theorem c7_amended_witness :
    (∀ kv ∈ ([ (appendPathKey, "/b".data), (prependPathKey, "/c".data) ] :
        List (Str × Str)), ('=' : Char) ∉ kv.1)
    ∧ envLookup appendPathKey [ "PATH=/a".data ] = none
    ∧ envLookup prependPathKey [ "PATH=/a".data ] = none
    ∧ expectedPath (ImageSpec.mk (ImageConfig.mk [] [] [ "PATH=/a".data ]))
        [ (appendPathKey, "/b".data), (prependPathKey, "/c".data) ] ≠ []
    ∧ envLookup pathKey
        (getProcessEnv (ImageSpec.mk (ImageConfig.mk [] [] [ "PATH=/a".data ]))
          [ (appendPathKey, "/b".data), (prependPathKey, "/c".data) ])
        = some ("/c:/a:/b".data) := by
  refine ⟨by decide, by decide, by decide, by decide, ?_⟩
  have h := (c7_amended (ImageSpec.mk (ImageConfig.mk [] [] [ "PATH=/a".data ]))
    [ (appendPathKey, "/b".data), (prependPathKey, "/c".data) ]
    (by decide) (by decide) (by decide)).1 (by decide)
  exact h.trans (by decide)

lemma isPrefixB_self (l : Str) : isPrefixB l l = true := by
  have h : isPrefixB l (l ++ []) = true := isPrefixB_append_self l []
  simpa using h

lemma containsB_append_right (pat : Str) (hne : pat ≠ []) :
    ∀ l, containsB pat (l ++ pat) = true := by
  intro l
  induction l with
  | nil =>
    cases pat with
    | nil => exact absurd rfl hne
    | cons p t => simp [containsB, isPrefixB_self]
  | cons c l2 ih => simp [containsB, List.cons_append, ih]

lemma countOcc_eq_zero_of_not_contains (pat : Str) :
    ∀ l, containsB pat l = false → countOcc pat l = 0 := by
  intro l
  induction l with
  | nil =>
    intro h
    have h2 : isPrefixB pat [] = false := h
    simp [countOcc, h2]
  | cons c t ih =>
    intro h
    rw [show containsB pat (c :: t)
      = (isPrefixB pat (c :: t) || containsB pat t) from rfl] at h
    simp only [Bool.or_eq_false_iff] at h
    simp [countOcc, h.1, ih h.2]

lemma countOcc_pos_of_contains (pat : Str) :
    ∀ l, containsB pat l = true → 1 ≤ countOcc pat l := by
  intro l
  induction l with
  | nil =>
    intro h
    have h2 : isPrefixB pat [] = true := h
    simp [countOcc, h2]
  | cons c t ih =>
    intro h
    rw [show containsB pat (c :: t)
      = (isPrefixB pat (c :: t) || containsB pat t) from rfl] at h
    rw [show countOcc pat (c :: t)
      = (if isPrefixB pat (c :: t) then 1 else 0) + countOcc pat t from rfl]
    rcases Bool.or_eq_true_iff.mp h with h1 | h1
    · rw [if_pos h1]
      omega
    · have := ih h1
      omega

lemma countOcc_eq_zero_of_short (pat : Str) (hne : pat ≠ []) :
    ∀ l, l.length < pat.length → countOcc pat l = 0 := by
  intro l
  induction l with
  | nil =>
    intro _
    have h2 : isPrefixB pat [] = false := by
      cases pat with
      | nil => exact absurd rfl hne
      | cons p t => rfl
    simp [countOcc, h2]
  | cons c t ih =>
    intro hlen
    have h1 : isPrefixB pat (c :: t) = false := by
      cases hp : isPrefixB pat (c :: t) with
      | false => rfl
      | true =>
        have := isPrefixB_length_le pat (c :: t) hp
        simp only [List.length_cons] at this hlen
        omega
    have hlen2 : t.length < pat.length := by
      simp only [List.length_cons] at hlen
      omega
    simp [countOcc, h1, ih hlen2]

lemma countOcc_self (pat : Str) (hne : pat ≠ []) : countOcc pat pat = 1 := by
  cases hp : pat with
  | nil => exact absurd hp hne
  | cons p t =>
    have h0 : countOcc (p :: t) t = 0 :=
      countOcc_eq_zero_of_short (p :: t) (by simp) t (by simp)
    simp [countOcc, isPrefixB_self, h0]

lemma isPrefixB_append_left (pat : Str) :
    ∀ l r, isPrefixB pat (l ++ r) = true → pat.length ≤ l.length →
      isPrefixB pat l = true := by
  induction pat with
  | nil => intro l r _ _; rfl
  | cons a t ih =>
    intro l r h hlen
    cases l with
    | nil => simp at hlen
    | cons b l2 =>
      rw [List.cons_append] at h
      simp only [isPrefixB, Bool.and_eq_true, decide_eq_true_eq] at h ⊢
      refine ⟨h.1, ih l2 r h.2 ?_⟩
      simp only [List.length_cons] at hlen
      omega

lemma mem_of_isPrefixB_cross (pat : Str) :
    ∀ l (c : Char) r, isPrefixB pat (l ++ (c :: r)) = true →
      l.length < pat.length → c ∈ pat := by
  induction pat with
  | nil => intro l c r _ hlen; simp at hlen
  | cons a t ih =>
    intro l c r h hlen
    cases l with
    | nil =>
      simp only [List.nil_append, isPrefixB, Bool.and_eq_true,
        decide_eq_true_eq] at h
      rw [h.1]
      exact List.mem_cons_self c t
    | cons b l2 =>
      rw [List.cons_append] at h
      simp only [isPrefixB, Bool.and_eq_true, decide_eq_true_eq] at h
      simp only [List.length_cons] at hlen
      exact List.mem_cons_of_mem a (ih l2 c r h.2 (by omega))

lemma countOcc_append_colon (pat : Str) (hne : pat ≠ [])
    (hcolon : (':' : Char) ∉ pat) :
    ∀ l, containsB pat l = false → countOcc pat (l ++ (':' :: pat)) = 1 := by
  intro l
  induction l with
  | nil =>
    intro _
    have h1 : isPrefixB pat (':' :: pat) = false := by
      cases pat with
      | nil => exact absurd rfl hne
      | cons p t =>
        have hp : ¬ (p = ':') :=
          fun h => hcolon (by rw [← h]; exact List.mem_cons_self p t)
        simp [isPrefixB, hp]
    rw [List.nil_append,
      show countOcc pat (':' :: pat)
        = (if isPrefixB pat (':' :: pat) then 1 else 0) + countOcc pat pat
        from rfl,
      h1, countOcc_self pat hne]
    simp
  | cons c l2 ih =>
    intro hcont
    rw [show containsB pat (c :: l2)
      = (isPrefixB pat (c :: l2) || containsB pat l2) from rfl] at hcont
    simp only [Bool.or_eq_false_iff] at hcont
    have h1 : isPrefixB pat (c :: (l2 ++ (':' :: pat))) = false := by
      cases hp : isPrefixB pat (c :: (l2 ++ (':' :: pat))) with
      | false => rfl
      | true =>
        by_cases hlen : pat.length ≤ (c :: l2).length
        · have h2 : isPrefixB pat ((c :: l2) ++ (':' :: pat)) = true := hp
          have := isPrefixB_append_left pat (c :: l2) (':' :: pat) h2 hlen
          rw [this] at hcont
          exact absurd hcont.1 (by simp)
        · have h2 : isPrefixB pat ((c :: l2) ++ (':' :: pat)) = true := hp
          have := mem_of_isPrefixB_cross pat (c :: l2) ':' pat h2 (by omega)
          exact absurd this hcolon
    rw [List.cons_append,
      show countOcc pat (c :: (l2 ++ (':' :: pat)))
        = (if isPrefixB pat (c :: (l2 ++ (':' :: pat))) then 1 else 0)
          + countOcc pat (l2 ++ (':' :: pat)) from rfl,
      h1, ih hcont.2]
    simp

lemma ensure_of_contains (s : Str)
    (h : containsB apptainerLibs s = true) : ensureApptainerLibs s = s := by
  unfold ensureApptainerLibs
  rw [if_pos h]

lemma contains_ensureApptainerLibs (ld : Str) :
    containsB apptainerLibs (ensureApptainerLibs ld) = true := by
  unfold ensureApptainerLibs
  by_cases h : containsB apptainerLibs ld = true
  · rw [if_pos h]
    exact h
  · rw [if_neg h]
    cases ld with
    | nil =>
      rw [List.nil_append,
        show trimColon (':' :: apptainerLibs) = apptainerLibs from by
          simp [trimColon]]
      have h2 := containsB_append_right apptainerLibs (by decide) []
      simpa using h2
    | cons c ld2 =>
      by_cases hc : c = ':'
      · subst hc
        rw [List.cons_append,
          show trimColon (':' :: (ld2 ++ (':' :: apptainerLibs)))
            = ld2 ++ (':' :: apptainerLibs) from by simp [trimColon]]
        have h2 : ld2 ++ (':' :: apptainerLibs)
            = (ld2 ++ [ ':' ]) ++ apptainerLibs := by simp
        rw [h2]
        exact containsB_append_right apptainerLibs (by decide) _
      · rw [List.cons_append,
          show trimColon (c :: (ld2 ++ (':' :: apptainerLibs)))
            = c :: (ld2 ++ (':' :: apptainerLibs)) from by simp [trimColon, hc]]
        have h2 : c :: (ld2 ++ (':' :: apptainerLibs))
            = ((c :: ld2) ++ [ ':' ]) ++ apptainerLibs := by simp
        rw [h2]
        exact containsB_append_right apptainerLibs (by decide) _

lemma ensure_count_one (ld : Str) (h : countOcc apptainerLibs ld ≤ 1) :
    countOcc apptainerLibs (ensureApptainerLibs ld) = 1 := by
  unfold ensureApptainerLibs
  by_cases hc : containsB apptainerLibs ld = true
  · rw [if_pos hc]
    have h1 := countOcc_pos_of_contains apptainerLibs ld hc
    omega
  · rw [if_neg hc]
    have hc2 : containsB apptainerLibs ld = false := by
      cases hcc : containsB apptainerLibs ld with
      | false => rfl
      | true => exact absurd hcc hc
    cases ld with
    | nil =>
      rw [List.nil_append,
        show trimColon (':' :: apptainerLibs) = apptainerLibs from by
          simp [trimColon]]
      exact countOcc_self apptainerLibs (by decide)
    | cons c ld2 =>
      rw [show containsB apptainerLibs (c :: ld2)
        = (isPrefixB apptainerLibs (c :: ld2) || containsB apptainerLibs ld2)
        from rfl] at hc2
      simp only [Bool.or_eq_false_iff] at hc2
      by_cases hcc : c = ':'
      · subst hcc
        rw [List.cons_append,
          show trimColon (':' :: (ld2 ++ (':' :: apptainerLibs)))
            = ld2 ++ (':' :: apptainerLibs) from by simp [trimColon]]
        exact countOcc_append_colon apptainerLibs (by decide) (by decide)
          ld2 hc2.2
      · rw [List.cons_append,
          show trimColon (c :: (ld2 ++ (':' :: apptainerLibs)))
            = c :: (ld2 ++ (':' :: apptainerLibs)) from by
              simp [trimColon, hcc]]
        rw [← List.cons_append]
        refine countOcc_append_colon apptainerLibs (by decide) (by decide)
          (c :: ld2) ?_
        rw [show containsB apptainerLibs (c :: ld2)
          = (isPrefixB apptainerLibs (c :: ld2)
            || containsB apptainerLibs ld2) from rfl]
        simp [hc2.1, hc2.2]

/-- Claim C8, as stated, is false on the code: an input value that already
contains the library directory twice is left undisturbed, so the result does
not contain it exactly once. -/
theorem c8_counterexample :
    ensureApptainerLibs ("/.singularity.d/libs:/.singularity.d/libs".data)
      = "/.singularity.d/libs:/.singularity.d/libs".data
    ∧ countOcc apptainerLibs
        (ensureApptainerLibs
          ("/.singularity.d/libs:/.singularity.d/libs".data)) = 2 :=
  ⟨by decide, by decide⟩

/-- Claim C8 (amended): the resolved `LD_LIBRARY_PATH` always contains the
fixed library directory, exactly once whenever the input contained it at most
once (an input already containing it several times is left undisturbed and
keeps them); it is appended when absent and the value is left undisturbed
when present; applying the resolution twice equals applying it once; and the
resolved environment's `LD_LIBRARY_PATH` is exactly this post-processing of
the last `LD_LIBRARY_PATH` value seen across sources. -/
theorem c8_amended (ld : Str) :
    containsB apptainerLibs (ensureApptainerLibs ld) = true
    ∧ (containsB apptainerLibs ld = true → ensureApptainerLibs ld = ld)
    ∧ (containsB apptainerLibs ld = false →
        ensureApptainerLibs ld = trimColon (ld ++ (':' :: apptainerLibs)))
    ∧ ensureApptainerLibs (ensureApptainerLibs ld) = ensureApptainerLibs ld
    ∧ (countOcc apptainerLibs ld ≤ 1 →
        countOcc apptainerLibs (ensureApptainerLibs ld) = 1)
    ∧ ∀ (imgSpec : ImageSpec) (runtimeEnv : List (Str × Str)),
        envLookup ldLibraryPathKey (getProcessEnv imgSpec runtimeEnv)
          = some (ensureApptainerLibs
              (lastVal ldLibraryPathKey runtimeEnv
                (imageEnvVal ldLibraryPathKey imgSpec.config.env))) := by
  refine ⟨contains_ensureApptainerLibs ld, ?_, ?_, ?_, ensure_count_one ld, ?_⟩
  · intro h
    exact ensure_of_contains ld h
  · intro h
    unfold ensureApptainerLibs
    rw [if_neg (by rw [h]; simp)]
  · exact ensure_of_contains _ (contains_ensureApptainerLibs ld)
  · intro imgSpec runtimeEnv
    rw [getProcessEnv_eq]
    exact envLookup_setProcessEnv_self ldLibraryPathKey _ _

/-- Claim C8 witness: an input without the library directory gets it appended
and the result contains it exactly once; the link to `getProcessEnv` holds at
a concrete image env and override map. -/
theorem c8_amended_witness :
    (countOcc apptainerLibs ("/usr/lib".data) ≤ 1)
    ∧ countOcc apptainerLibs (ensureApptainerLibs ("/usr/lib".data)) = 1
    ∧ containsB apptainerLibs ("/usr/lib".data) = false
    ∧ ensureApptainerLibs ("/usr/lib".data)
        = trimColon ("/usr/lib".data ++ (':' :: apptainerLibs)) := by
  refine ⟨by decide, (c8_amended ("/usr/lib".data)).2.2.2.2.1 (by decide),
    by decide, (c8_amended ("/usr/lib".data)).2.2.1 (by decide)⟩

lemma updateEnvMap_keys (P : Str → Prop) (k v : Str) (hk : P k) :
    ∀ a, (∀ kv ∈ a, P kv.1) → ∀ kv ∈ updateEnvMap a k v, P kv.1 := by
  intro a
  induction a with
  | nil =>
    intro _ kv hkv
    rw [show updateEnvMap [] k v = [(k, v)] from rfl] at hkv
    rcases List.mem_singleton.mp hkv with h
    subst h
    exact hk
  | cons q t ih =>
    intro ha kv hkv
    rw [show updateEnvMap (q :: t) k v
      = (if q.1 = k then (k, v) :: t else q :: updateEnvMap t k v)
      from rfl] at hkv
    by_cases hq : q.1 = k
    · rw [if_pos hq] at hkv
      rcases List.mem_cons.mp hkv with h | h
      · subst h
        exact hk
      · exact ha kv (List.mem_cons_of_mem q h)
    · rw [if_neg hq] at hkv
      rcases List.mem_cons.mp hkv with h | h
      · subst h
        exact ha kv (List.mem_cons_self kv t)
      · exact ih (fun r hr => ha r (List.mem_cons_of_mem q hr)) kv h

lemma mergeMap_keys (P : Str → Prop) :
    ∀ b a, (∀ kv ∈ a, P kv.1) → (∀ kv ∈ b, P kv.1) →
      ∀ kv ∈ mergeMap a b, P kv.1 := by
  intro b
  induction b with
  | nil =>
    intro a ha _ kv hkv
    exact ha kv hkv
  | cons q t ih =>
    intro a ha hb kv hkv
    rw [show mergeMap a (q :: t) = mergeMap (updateEnvMap a q.1 q.2) t
      from rfl] at hkv
    exact ih (updateEnvMap a q.1 q.2)
      (updateEnvMap_keys P q.1 q.2 (hb q (List.mem_cons_self q t)) a ha)
      (fun r hr => hb r (List.mem_cons_of_mem q hr)) kv hkv

lemma lastValO_updateEnvMap_other (n k v : Str) (hkn : ¬ (k = n)) :
    ∀ a, lastValO n (updateEnvMap a k v) = lastValO n a := by
  intro a
  induction a with
  | nil => simp [updateEnvMap, lastValO, hkn]
  | cons q t ih =>
    rw [show updateEnvMap (q :: t) k v
      = (if q.1 = k then (k, v) :: t else q :: updateEnvMap t k v) from rfl]
    by_cases hq : q.1 = k
    · rw [if_pos hq]
      cases h : lastValO n t <;> simp [lastValO, h, hkn, hq]
    · rw [if_neg hq]
      simp [lastValO, ih]

lemma lastValO_mergeMap_other (n : Str) :
    ∀ b a, (∀ kv ∈ b, ¬ (kv.1 = n)) →
      lastValO n (mergeMap a b) = lastValO n a := by
  intro b
  induction b with
  | nil => intro a _; rfl
  | cons q t ih =>
    intro a hb
    rw [show mergeMap a (q :: t) = mergeMap (updateEnvMap a q.1 q.2) t
      from rfl]
    rw [ih (updateEnvMap a q.1 q.2) (fun r hr => hb r (List.mem_cons_of_mem q hr))]
    exact lastValO_updateEnvMap_other n q.1 q.2 (hb q (List.mem_cons_self q t)) a

lemma lastValO_defaultEnv_container (image bundle : Str) :
    lastValO containerEnvKey (defaultEnv image bundle) = some bundle := by
  simp [lastValO, defaultEnv,
    show ¬ (nameEnvKey = containerEnvKey) from by decide]

lemma lastValO_defaultEnv_name (image bundle : Str) :
    lastValO nameEnvKey (defaultEnv image bundle) = some image := by
  simp [lastValO, defaultEnv]

lemma defaultEnv_keys (image bundle : Str) :
    ∀ kv ∈ defaultEnv image bundle, ('=' : Char) ∉ kv.1 := by
  intro kv hkv
  rcases List.mem_cons.mp hkv with h | h
  · subst h
    show ('=' : Char) ∉ containerEnvKey
    decide
  · rcases List.mem_singleton.mp h with h2
    subst h2
    show ('=' : Char) ∉ nameEnvKey
    decide

lemma envLookup_getProcessEnv_of_lastValO (imgSpec : ImageSpec)
    (re : List (Str × Str)) (n v : Str)
    (hkeys : ∀ kv ∈ re, ('=' : Char) ∉ kv.1) (hn : ('=' : Char) ∉ n)
    (hns : isSpecialKey n = false) (hv : lastValO n re = some v) :
    envLookup n (getProcessEnv imgSpec re) = some v := by
  have hnp : ¬ (n = pathKey) := fun h => by
    rw [h] at hns
    exact absurd hns (by decide)
  have hnl : ¬ (n = ldLibraryPathKey) := fun h => by
    rw [h] at hns
    exact absurd hns (by decide)
  rw [getProcessEnv_eq,
    envLookup_setProcessEnv_other ldLibraryPathKey _ n (by decide) hn hnl]
  by_cases hne : expectedPath imgSpec re ≠ []
  · rw [if_pos hne,
      envLookup_setProcessEnv_other pathKey _ n (by decide) hn hnp,
      envLookup_foldG n hn hns re _ hkeys, hv]
  · rw [if_neg hne, envLookup_foldG n hn hns re _ hkeys, hv]

lemma buildRtEnv_ok (envFile : String) (cfgEnv osEnv : List (Str × Str))
    (envFileResult : Except String (List (Str × Str)))
    (image bundle : Str) (rt : List (Str × Str))
    (hrt : buildRtEnv envFile cfgEnv osEnv envFileResult image bundle = .ok rt)
    (hos : ∀ kv ∈ osEnv, ('=' : Char) ∉ kv.1
        ∧ ¬ (kv.1 = containerEnvKey) ∧ ¬ (kv.1 = nameEnvKey))
    (hfile : ∀ e, envFileResult = .ok e → ∀ kv ∈ e, ('=' : Char) ∉ kv.1
        ∧ ¬ (kv.1 = containerEnvKey) ∧ ¬ (kv.1 = nameEnvKey))
    (hcfg : ∀ kv ∈ cfgEnv, ('=' : Char) ∉ kv.1
        ∧ ¬ (kv.1 = containerEnvKey) ∧ ¬ (kv.1 = nameEnvKey)) :
    (∀ kv ∈ rt, ('=' : Char) ∉ kv.1)
    ∧ lastValO containerEnvKey rt = some bundle
    ∧ lastValO nameEnvKey rt = some image := by
  simp only [buildRtEnv] at hrt
  by_cases hef : envFile = ""
  · rw [if_pos hef] at hrt
    replace hrt : Except.ok
        (mergeMap (mergeMap (defaultEnv image bundle) osEnv) cfgEnv)
        = Except.ok rt := hrt
    injection hrt with hrt2
    subst hrt2
    refine ⟨?_, ?_, ?_⟩
    · exact mergeMap_keys (fun k => ('=' : Char) ∉ k) cfgEnv _
        (mergeMap_keys (fun k => ('=' : Char) ∉ k) osEnv _
          (defaultEnv_keys image bundle)
          (fun kv hkv => (hos kv hkv).1))
        (fun kv hkv => (hcfg kv hkv).1)
    · rw [lastValO_mergeMap_other _ cfgEnv _
        (fun kv hkv => (hcfg kv hkv).2.1),
        lastValO_mergeMap_other _ osEnv _ (fun kv hkv => (hos kv hkv).2.1)]
      exact lastValO_defaultEnv_container image bundle
    · rw [lastValO_mergeMap_other _ cfgEnv _
        (fun kv hkv => (hcfg kv hkv).2.2),
        lastValO_mergeMap_other _ osEnv _ (fun kv hkv => (hos kv hkv).2.2)]
      exact lastValO_defaultEnv_name image bundle
  · rw [if_neg hef] at hrt
    cases hef2 : envFileResult with
    | error e =>
      rw [hef2] at hrt
      exact absurd hrt (by simp [Except.map])
    | ok efl =>
      rw [hef2] at hrt
      replace hrt : Except.ok
          (mergeMap (mergeMap (mergeMap (defaultEnv image bundle) osEnv) efl)
            cfgEnv)
          = Except.ok rt := hrt
      injection hrt with hrt2
      subst hrt2
      have hfl := hfile efl hef2
      refine ⟨?_, ?_, ?_⟩
      · exact mergeMap_keys (fun k => ('=' : Char) ∉ k) cfgEnv _
          (mergeMap_keys (fun k => ('=' : Char) ∉ k) efl _
            (mergeMap_keys (fun k => ('=' : Char) ∉ k) osEnv _
              (defaultEnv_keys image bundle)
              (fun kv hkv => (hos kv hkv).1))
            (fun kv hkv => (hfl kv hkv).1))
          (fun kv hkv => (hcfg kv hkv).1)
      · rw [lastValO_mergeMap_other _ cfgEnv _
          (fun kv hkv => (hcfg kv hkv).2.1),
          lastValO_mergeMap_other _ efl _ (fun kv hkv => (hfl kv hkv).2.1),
          lastValO_mergeMap_other _ osEnv _ (fun kv hkv => (hos kv hkv).2.1)]
        exact lastValO_defaultEnv_container image bundle
      · rw [lastValO_mergeMap_other _ cfgEnv _
          (fun kv hkv => (hcfg kv hkv).2.2),
          lastValO_mergeMap_other _ efl _ (fun kv hkv => (hfl kv hkv).2.2),
          lastValO_mergeMap_other _ osEnv _ (fun kv hkv => (hos kv hkv).2.2)]
        exact lastValO_defaultEnv_name image bundle

/-- Claim C10: `getProcess` seeds the runtime environment with the container
name variable (`APPTAINER_CONTAINER`, set to the bundle path) and the image
name variable (`APPTAINER_NAME`, set to the image reference) before any of
the later override sources, at the lowest priority: whenever none of
the later sources overrides them, the built process spec's final environment
contains both. -/
theorem c10_default_env (envFile : String) (cfgEnv : List (Str × Str))
    (fakeroot : Bool) (osEnv : List (Str × Str))
    (envFileResult : Except String (List (Str × Str)))
    (userLookup : Except String Str) (terminal : Bool)
    (hostUid hostGid : Nat) (imgSpec : ImageSpec)
    (image bundle process : Str) (args : List Str) (p : ProcessSpec)
    (hok : getProcess envFile cfgEnv fakeroot osEnv envFileResult userLookup
        terminal hostUid hostGid imgSpec image bundle process args
        = .ok p)
    (hos : ∀ kv ∈ osEnv, ('=' : Char) ∉ kv.1
        ∧ ¬ (kv.1 = containerEnvKey) ∧ ¬ (kv.1 = nameEnvKey))
    (hfile : ∀ e, envFileResult = .ok e → ∀ kv ∈ e, ('=' : Char) ∉ kv.1
        ∧ ¬ (kv.1 = containerEnvKey) ∧ ¬ (kv.1 = nameEnvKey))
    (hcfg : ∀ kv ∈ cfgEnv, ('=' : Char) ∉ kv.1
        ∧ ¬ (kv.1 = containerEnvKey) ∧ ¬ (kv.1 = nameEnvKey)) :
    envLookup containerEnvKey p.env = some bundle
    ∧ envLookup nameEnvKey p.env = some image := by
  unfold getProcess at hok
  cases hrt : buildRtEnv envFile cfgEnv osEnv envFileResult image bundle with
  | error e =>
    rw [hrt] at hok
    exact absurd hok (by simp)
  | ok rtEnv =>
    rw [hrt] at hok
    cases hcwd : getProcessCwd fakeroot userLookup with
    | error e =>
      rw [hcwd] at hok
      exact absurd hok (by simp)
    | ok cwd =>
      rw [hcwd] at hok
      replace hok : Except.ok
          (ProcessSpec.mk (getProcessArgs imgSpec process args) cwd
            (getProcessEnv imgSpec rtEnv)
            (getProcessUser fakeroot hostUid hostGid) terminal)
          = Except.ok p := hok
      injection hok with hok2
      subst hok2
      obtain ⟨hkeys, hc, hn⟩ := buildRtEnv_ok envFile cfgEnv osEnv
        envFileResult image bundle rtEnv hrt hos hfile hcfg
      exact ⟨envLookup_getProcessEnv_of_lastValO imgSpec rtEnv
          containerEnvKey bundle hkeys (by decide) (by decide) hc,
        envLookup_getProcessEnv_of_lastValO imgSpec rtEnv
          nameEnvKey image hkeys (by decide) (by decide) hn⟩

/-- Claim C10 witness: with no overriding sources, the built process spec's
environment contains `APPTAINER_CONTAINER=/bundle` and
`APPTAINER_NAME=img`. -/
theorem c10_default_env_witness :
    (getProcess "" [] false [] (.ok []) (.ok ("/home/u".data)) false 1000 1000
        (ImageSpec.mk (ImageConfig.mk [] [] [])) ("img".data)
        ("/bundle".data) ("sh".data) []
      = .ok (ProcessSpec.mk [ "sh".data ] ("/home/u".data)
          [ "APPTAINER_CONTAINER=/bundle".data, "APPTAINER_NAME=img".data,
            "LD_LIBRARY_PATH=/.singularity.d/libs".data ]
          (User.mk 1000 1000) false))
    ∧ envLookup containerEnvKey
        (ProcessSpec.mk [ "sh".data ] ("/home/u".data)
          [ "APPTAINER_CONTAINER=/bundle".data, "APPTAINER_NAME=img".data,
            "LD_LIBRARY_PATH=/.singularity.d/libs".data ]
          (User.mk 1000 1000) false).env = some ("/bundle".data)
    ∧ envLookup nameEnvKey
        (ProcessSpec.mk [ "sh".data ] ("/home/u".data)
          [ "APPTAINER_CONTAINER=/bundle".data, "APPTAINER_NAME=img".data,
            "LD_LIBRARY_PATH=/.singularity.d/libs".data ]
          (User.mk 1000 1000) false).env = some ("img".data) := by
  have hok : getProcess "" [] false [] (.ok []) (.ok ("/home/u".data)) false
      1000 1000 (ImageSpec.mk (ImageConfig.mk [] [] [])) ("img".data)
      ("/bundle".data) ("sh".data) []
      = .ok (ProcessSpec.mk [ "sh".data ] ("/home/u".data)
          [ "APPTAINER_CONTAINER=/bundle".data, "APPTAINER_NAME=img".data,
            "LD_LIBRARY_PATH=/.singularity.d/libs".data ]
          (User.mk 1000 1000) false) := by rfl
  refine ⟨hok, ?_⟩
  exact c10_default_env "" [] false [] (.ok []) (.ok ("/home/u".data)) false
    1000 1000 (ImageSpec.mk (ImageConfig.mk [] [] [])) ("img".data)
    ("/bundle".data) ("sh".data) [] _ hok
    (fun kv hkv => absurd hkv (List.not_mem_nil kv))
    (fun e he kv hkv => by
      injection he with h2
      subst h2
      exact absurd hkv (List.not_mem_nil kv))
    (fun kv hkv => absurd hkv (List.not_mem_nil kv))

end Apptainer
